import Mathlib

/-!
Verification of the multi-probe clock synchronization engine of
ibllib (file ibllib/ephys/sync_probes.py) against its specification.

The code is shallowly embedded over exact rational arithmetic (ℚ in place
of IEEE floats), lists in place of numpy arrays, and Except String in place
of raised Python exceptions.  External numpy/scipy primitives used by the
source (np.polyfit, np.polyval, np.interp, scipy interp1d with
fill_value extrapolate, np.arange, np.pad in median mode, np.argmax) are
embedded with their documented mathematical semantics at the call sites,
which all pass abscissas in increasing order.  The frequency-domain
low-pass filter ibllib.dsp.lp is code of the repository that is not part
of the sources under verification, so every definition and theorem is
parameterized by an arbitrary function lp standing for it.
-/

/-- Value at x of the line through control points p and q (the linear
segment used by scipy interp1d for interpolation and extrapolation). -/
def seg (p q : ℚ × ℚ) (x : ℚ) : ℚ :=
  p.2 + (x - p.1) * (q.2 - p.2) / (q.1 - p.1)

/-- Embedding of scipy.interpolate.interp1d with fill_value extrapolate,
for knots given with increasing abscissas (every call site of the source
passes an increasing abscissa column): piecewise-linear interpolation,
extended linearly beyond the outermost knots by the first / last segment. -/
def interp1 : List (ℚ × ℚ) → ℚ → ℚ
  | [], _ => 0
  | [p], _ => p.2
  | [p, q], x => seg p q x
  | p :: q :: r :: l, x => if x ≤ q.1 then seg p q x else interp1 (q :: r :: l) x

/-- Embedding of np.interp for knots with increasing abscissas:
piecewise-linear interpolation, clamped to the first / last ordinate
outside the knot range. -/
def interpClamp : List (ℚ × ℚ) → ℚ → ℚ
  | [], _ => 0
  | [p], _ => p.2
  | p :: q :: l, x =>
    if x ≤ p.1 then p.2
    else if x ≤ q.1 then seg p q x
    else interpClamp (q :: l) x

/-- Embedding of np.arange a b step for a positive step:
a, a + step, a + 2 step, ... strictly below b. -/
def arangeQ (a b step : ℚ) : List ℚ :=
  (List.range (⌈(b - a) / step⌉).toNat).map fun k => a + (k : ℚ) * step

/-- Embedding of np.max on a list (np.max errors on an empty array; the
empty case returns 0 and is never reached by the claims). -/
def maxQ : List ℚ → ℚ
  | [] => 0
  | h :: l => l.foldl max h

/-- Embedding of np.median: middle element of the sorted list for odd
length, mean of the two middle elements for even positive length. -/
def medianQ (l : List ℚ) : ℚ :=
  let s := l.mergeSort (· ≤ ·)
  if l.length % 2 = 1 then s.getD (l.length / 2) 0
  else if l.length = 0 then 0
  else (s.getD (l.length / 2 - 1) 0 + s.getD (l.length / 2) 0) / 2

/-- Embedding of np.pad in median mode: prepend a copies of the median of
the first statLen entries and append b copies of the median of the last
statLen entries. -/
def padMedian (l : List ℚ) (a b statLen : ℕ) : List ℚ :=
  List.replicate a (medianQ (l.take statLen)) ++ l
    ++ List.replicate b (medianQ (l.drop (l.length - statLen)))

/-- Embedding of the Python slice l[a:-b] (negative upper bound; for b = 0
the slice l[a:0] is empty). -/
def sliceNeg (l : List ℚ) (a b : ℕ) : List ℚ :=
  if b = 0 then [] else (l.drop a).take (l.length - b - a)

/-- Sum of the first coordinates of a paired list. -/
def sumX (l : List (ℚ × ℚ)) : ℚ := (l.map Prod.fst).sum

/-- Sum of the second coordinates of a paired list. -/
def sumY (l : List (ℚ × ℚ)) : ℚ := (l.map Prod.snd).sum

/-- Sum of the squared first coordinates of a paired list. -/
def sumXX (l : List (ℚ × ℚ)) : ℚ := (l.map fun p => p.1 * p.1).sum

/-- Sum of the products of the coordinates of a paired list. -/
def sumXY (l : List (ℚ × ℚ)) : ℚ := (l.map fun p => p.1 * p.2).sum

/-- Denominator of the closed-form degree-1 least-squares solution; it is
nonzero exactly when the abscissas are not all equal (and the list is
nonempty). -/
def polyfitDenom (l : List (ℚ × ℚ)) : ℚ :=
  (l.length : ℚ) * sumXX l - sumX l * sumX l

/-- Embedding of np.polyfit of degree 1 on matched pairs, as the exact
closed-form least-squares solution (slope, intercept) of the normal
equations over ℚ. -/
def polyfit1 (l : List (ℚ × ℚ)) : ℚ × ℚ :=
  let a := ((l.length : ℚ) * sumXY l - sumX l * sumY l) / polyfitDenom l
  (a, (sumY l - a * sumX l) / (l.length : ℚ))

/-- Embedding of np.polyval for a degree-1 coefficient pair
(slope, intercept). -/
def polyval1 (pol : ℚ × ℚ) (x : ℚ) : ℚ := pol.1 * x + pol.2

/-- Sum of squared residuals of the affine model c.1 * x + c.2 on the
matched pairs l. -/
def lsqErr (l : List (ℚ × ℚ)) (c : ℚ × ℚ) : ℚ :=
  (l.map fun p => (p.2 - (c.1 * p.1 + c.2)) ^ 2).sum

/-- Result of sync_probe_front_times: the control-point table, the QC
boolean, and whether the diagnostic display sink was invoked (the source
plots exactly when the display argument is truthy, in both branches). -/
structure SyncFit where
  syncPoints : List (ℚ × ℚ)
  qc : Bool
  plotted : Bool

/-- Control-point construction of sync_probe_front_times (lines 157-200 of
ibllib/ephys/sync_probes.py).  lp stands for the low-pass filter
ibllib.dsp.lp, which is outside the sources under verification; every
result below holds for an arbitrary lp.  The stage fits a degree-1
polynomial of tref against t, then either (linear) evaluates the fitted
line at 0 and 1, or (default) low-pass filters the residual on an
upsampled 300 Hz grid with median padding and samples the fitted line
plus smoothed residual every 20 s. -/
def fitSyncPoints (lp : List ℚ → List ℚ) (t tref : List ℚ) (linear : Bool) :
    List (ℚ × ℚ) :=
  let pol := polyfit1 (t.zip tref)
  let residual := (t.zip tref).map fun p => p.2 - polyval1 pol p.1
  if linear then
    [(0, polyval1 pol 0), (1, polyval1 pol 1)]
  else
    let tUpsamp := arangeQ (tref.headD 0) (tref.getLastD 0) (1 / 300)
    let resUpsamp := tUpsamp.map (interpClamp (tref.zip residual))
    let nech := resUpsamp.length + 300 * 60
    let lpadTot := 2 ^ Nat.clog 2 nech - resUpsamp.length
    let lpad0 := lpadTot / 2 + lpadTot % 2
    let lpad1 := lpadTot / 2
    let resFilt := sliceNeg (lp (padMedian resUpsamp lpad0 lpad1 (300 * 30))) lpad0 lpad1
    let tout := arangeQ 0 (maxQ tref + 20) 20
    tout.map fun x => (x, polyval1 pol x + interpClamp (tUpsamp.zip resFilt) x)

/-- The tolerance check of sync_probe_front_times (lines 201-207 of the
source): True unless some matched pair deviates, in samples, strictly
beyond tol under the interp1d interpolant built on the control points. -/
def syncQc (t tref : List ℚ) (syncPoints : List (ℚ × ℚ)) (sr tol : ℚ) : Bool :=
  !((t.zip tref).any fun p => decide (tol < |(p.2 - interp1 syncPoints p.1) * sr|))

/-- Assembly of sync_probe_front_times: build the control points, run the
tolerance check on them, and return both (the control points are returned
whatever the check said). -/
def sync_probe_front_times (lp : List ℚ → List ℚ) (t tref : List ℚ) (sr : ℚ)
    (display : Bool) (linear : Bool) (tol : ℚ) : SyncFit :=
  let syncPoints := fitSyncPoints lp t tref linear
  ⟨syncPoints, syncQc t tref syncPoints sr tol, display⟩

/-- Embedding of apply_sync (ibllib/ephys/sync_probes.py): interpolate a
query time through a persisted control-point table, forward on the
(local, reference) columns, backward with the two columns swapped. -/
def apply_sync (sync_points : List (ℚ × ℚ)) (times : ℚ) (forward : Bool) : ℚ :=
  if forward then interp1 sync_points times
  else interp1 (sync_points.map fun p => (p.2, p.1)) times

/-- Embedding of the writer (named with a leading underscore in the
source): returns the two persisted tables, the raw control points and the
timestamps table whose first column is scaled by the sampling rate passed
in. -/
def save_timestamps_npy (tself_tref : List (ℚ × ℚ)) (sr : ℚ) :
    List (ℚ × ℚ) × List (ℚ × ℚ) :=
  (tself_tref, tself_tref.map fun r => (r.1 * sr, r.2))

/-- One _spikeglx_sync object: a channel id and a timestamp per detected
edge (the two arrays have corresponding entries). -/
structure SyncRecord where
  channels : List ℕ
  times : List ℚ

/-- One probe of a 3A session: its extracted sync object, the channel-name
map returned by get_ibl_sync_map, and its sampling rate from metadata. -/
structure ProbeFile where
  sync : SyncRecord
  syncMap : List (String × ℕ)
  sr : ℚ

/-- Default ProbeFile used for out-of-range list accesses. -/
def dfltProbe : ProbeFile := ⟨⟨[], []⟩, [], 0⟩

/-- Per-session edge data assembled by get_sync_fronts in version3A:
one list of edge times per probe on the chosen channel, and per probe the
TOTAL number of detected sync edges of that probe (len of its channels
array, all channels confounded). -/
structure Fronts where
  times : List (List ℚ)
  nsync : List ℕ

/-- The edge times of probe p on the named channel: none when the channel
is absent from the probe sync map or when no edge of the probe lies on
that channel (np.all of the negated membership mask). -/
def frontsFor (p : ProbeFile) (name : String) : Option (List ℚ) :=
  match p.syncMap.find? fun e => e.1 == name with
  | none => none
  | some e =>
    let ts := ((p.sync.channels.zip p.sync.times).filter fun c => c.1 == e.2).map Prod.snd
    if ts.isEmpty then none else some ts

/-- Embedding of the inner get_sync_fronts of version3A: collect the named
channel of every probe, or none as soon as one probe lacks it. -/
def getSyncFronts : List ProbeFile → String → Option Fronts
  | [], _ => some ⟨[], []⟩
  | p :: ps, name =>
    match frontsFor p name, getSyncFronts ps name with
    | some ts, some rest => some ⟨ts :: rest.times, p.sync.channels.length :: rest.nsync⟩
    | _, _ => none

/-- Minimum over the streams of the first timestamp
(min of t[0] for t in times). -/
def minFirst (tss : List (List ℚ)) : ℚ :=
  match tss.map fun ts => ts.headD 0 with
  | [] => 0
  | h :: l => l.foldl min h

/-- Channel-selection stage of version3A: frame2ttl if every probe has
edges on it, otherwise fall back to right_camera with a warning (the Bool
of the pair records the logged fallback warning); in the fallback, crash
if the camera channel is also missing (Python TypeError on subscripting
None) and raise ValueError when the earliest camera edge is at or before
0.2 s. -/
def chooseFronts (probes : List ProbeFile) : Except String (Fronts × Bool) :=
  match getSyncFronts probes "frame2ttl" with
  | some d => .ok (d, false)
  | none =>
    match getSyncFronts probes "right_camera" with
    | none => .error "TypeError"
    | some d =>
      if ¬ minFirst d.times > 1 / 5 then
        .error "Cameras started before ephys, no sync possible"
      else .ok (d, true)

/-- Embedding of np.argmax on natural counts: index of the first
occurrence of the maximum (0 on the empty list). -/
def argmaxList : List ℕ → ℕ
  | [] => 0
  | h :: l => if l.getD (argmaxList l) 0 > h then argmaxList l + 1 else 0

/-- Minimum of a list of lengths (min of the Python nsyncs list; 0 on the
empty list, which min would reject). -/
def minNat : List ℕ → ℕ
  | [] => 0
  | h :: l => l.foldl min h

/-- Result of one version3A run: the aggregated QC boolean, the selected
reference index, whether the unequal-edge-count warning and the camera
fallback warning were logged, and per probe the persisted pair of tables
(sync control points, timestamps). -/
structure Run3A where
  qcAll : Bool
  iref : ℕ
  truncWarn : Bool
  camWarn : Bool
  saved : List (List (ℚ × ℚ) × List (ℚ × ℚ))

/-- Fitting-and-writing stage of version3A, after the edge streams were
chosen: truncate every stream to the smallest count (warning when the
counts differ), take as reference the probe with the most TOTAL sync
edges (np.argmax, first index on ties), read the sampling rate from the
reference probe, then per probe persist either the fixed identity pair
(reference) or the sync_probe_front_times fit of its truncated stream
against the reference truncated stream; the session QC is the
conjunction of the per-fit QC booleans. -/
def fit3A (lp : List ℚ → List ℚ) (probes : List ProbeFile)
    (display linear : Bool) (tol : ℚ) (d : Fronts) (camWarn : Bool) : Run3A :=
  let nsyncs := d.times.map List.length
  let m := minNat nsyncs
  let times := d.times.map (List.take m)
  let iref := argmaxList d.nsync
  let sr := (probes.getD iref dfltProbe).sr
  let fits := (List.range probes.length).map fun ind =>
    if ind = iref then ([((0 : ℚ), (0 : ℚ)), (1, 1)], true)
    else
      let f := sync_probe_front_times lp (times.getD ind []) (times.getD iref []) sr
        display linear tol
      (f.syncPoints, f.qc)
  { qcAll := fits.all fun f => f.2
    iref := iref
    truncWarn := 1 < nsyncs.dedup.length
    camWarn := camWarn
    saved := fits.map fun f => save_timestamps_npy f.1 sr }

/-- Embedding of version3A (ibllib/ephys/sync_probes.py): skip (with
success) sessions of at most one probe, choose the edge channel with the
camera fallback, then fit and persist every probe. -/
def version3A (lp : List ℚ → List ℚ) (probes : List ProbeFile)
    (display linear : Bool) (tol : ℚ) : Except String Run3A :=
  if probes.length ≤ 1 then .ok ⟨true, 0, false, false, []⟩
  else (chooseFronts probes).map fun dc => fit3A lp probes display linear tol dc.1 dc.2

/-- Embedding of the public entry point sync (ibllib/ephys/sync_probes.py):
dispatch on the detected neuropixel version and call the version-specific
synchronizer.  The Python body calls version3A (or version3B) WITHOUT
returning its value and falls through, so the entry point returns None
(none here) whenever it does not raise; only the 3A dispatch is embedded,
the 3B branch likewise discards the callee result.  The log2session_static
decorator of the source only configures logging handlers and is not
modelled. -/
def sync (lp : List ℚ → List ℚ) (probes : List ProbeFile) (version : String)
    (display linear : Bool) (tol : ℚ) : Except String (Option Bool) :=
  if version == "3A" then
    match version3A lp probes display linear tol with
    | .error e => .error e
    | .ok _ => .ok none
  else .ok none

/-! Helper lemmas on sums, used for the least-squares optimality of the
embedded np.polyfit. -/

/-- Sum of the affine residuals of a model, in closed form. -/
theorem residual_sum_eq (l : List (ℚ × ℚ)) (a b : ℚ) :
    (l.map fun p => p.2 - (a * p.1 + b)).sum
      = sumY l - a * sumX l - (l.length : ℚ) * b := by
  induction l with
  | nil => simp [sumX, sumY]
  | cons p t ih =>
    simp only [sumX, sumY, List.map_cons, List.sum_cons, List.length_cons] at ih ⊢
    push_cast
    linear_combination ih

/-- Sum of the abscissa-weighted affine residuals, in closed form. -/
theorem residual_dot_eq (l : List (ℚ × ℚ)) (a b : ℚ) :
    (l.map fun p => p.1 * (p.2 - (a * p.1 + b))).sum
      = sumXY l - a * sumXX l - b * sumX l := by
  induction l with
  | nil => simp [sumX, sumXX, sumXY]
  | cons p t ih =>
    simp only [sumX, sumXX, sumXY, List.map_cons, List.sum_cons] at ih ⊢
    linear_combination ih

/-- The least-squares denominator vanishes on the empty list, so its
nonvanishing forces a nonzero length. -/
theorem polyfitDenom_length (l : List (ℚ × ℚ)) (h : polyfitDenom l ≠ 0) :
    (l.length : ℚ) ≠ 0 := by
  intro h0
  apply h
  have hl : l = [] := by
    have := Nat.cast_eq_zero.mp h0
    exact List.length_eq_zero.mp this
  subst hl
  simp [polyfitDenom, sumX, sumXX]

/-- First normal equation: the residuals of the fitted line sum to zero. -/
theorem polyfit1_normal1 (l : List (ℚ × ℚ)) (h : polyfitDenom l ≠ 0) :
    (l.map fun p => p.2 - ((polyfit1 l).1 * p.1 + (polyfit1 l).2)).sum = 0 := by
  have hn := polyfitDenom_length l h
  rw [residual_sum_eq]
  simp only [polyfit1]
  field_simp
  ring

/-- Second normal equation: the abscissa-weighted residuals of the fitted
line sum to zero. -/
theorem polyfit1_normal2 (l : List (ℚ × ℚ)) (h : polyfitDenom l ≠ 0) :
    (l.map fun p => p.1 * (p.2 - ((polyfit1 l).1 * p.1 + (polyfit1 l).2))).sum = 0 := by
  have hn := polyfitDenom_length l h
  rw [residual_dot_eq]
  simp only [polyfit1]
  have hd : polyfitDenom l ≠ 0 := h
  simp only [polyfitDenom] at hd ⊢
  field_simp
  ring

/-- Bias-variance style decomposition of the squared error of an arbitrary
affine model around a base model. -/
theorem lsq_decompose (l : List (ℚ × ℚ)) (a b a0 b0 : ℚ) :
    lsqErr l (a, b)
      = lsqErr l (a0, b0)
        + (l.map fun p => ((a0 - a) * p.1 + (b0 - b)) ^ 2).sum
        + 2 * ((a0 - a) * (l.map fun p => p.1 * (p.2 - (a0 * p.1 + b0))).sum
               + (b0 - b) * (l.map fun p => p.2 - (a0 * p.1 + b0)).sum) := by
  induction l with
  | nil => simp [lsqErr]
  | cons p t ih =>
    simp only [lsqErr, List.map_cons, List.sum_cons] at ih ⊢
    linear_combination ih

/-- The closed-form polyfit1 coefficients minimize the sum of squared
residuals over every affine model, whenever the least-squares system is
nondegenerate. -/
theorem polyfit1_lsq (l : List (ℚ × ℚ)) (h : polyfitDenom l ≠ 0) (c : ℚ × ℚ) :
    lsqErr l (polyfit1 l) ≤ lsqErr l c := by
  obtain ⟨a, b⟩ := c
  have h1 := polyfit1_normal1 l h
  have h2 := polyfit1_normal2 l h
  have key := lsq_decompose l a b (polyfit1 l).1 (polyfit1 l).2
  rw [h1, h2] at key
  have hnn : 0 ≤ (l.map fun p =>
      (((polyfit1 l).1 - a) * p.1 + ((polyfit1 l).2 - b)) ^ 2).sum := by
    apply List.sum_nonneg
    intro x hx
    obtain ⟨p, _, rfl⟩ := List.mem_map.mp hx
    positivity
  have heta : lsqErr l (polyfit1 l) = lsqErr l ((polyfit1 l).1, (polyfit1 l).2) := rfl
  rw [heta]
  linarith [key]

/-! Knot-evaluation lemmas for the piecewise-linear interpolant. -/

/-- The interpolating segment passes through its left control point. -/
theorem seg_left (p q : ℚ × ℚ) : seg p q p.1 = p.2 := by
  simp [seg]

/-- The interpolating segment passes through its right control point when
the two abscissas differ. -/
theorem seg_right (p q : ℚ × ℚ) (h : p.1 ≠ q.1) : seg p q q.1 = q.2 := by
  have h2 : q.1 - p.1 ≠ 0 := sub_ne_zero.mpr (Ne.symm h)
  field_simp [seg]

/-- On a control-point table with strictly increasing abscissas, the
piecewise-linear interpolant evaluates exactly to the ordinate at every
knot. -/
theorem interp1_knot : ∀ (l : List (ℚ × ℚ)),
    (l.map Prod.fst).Pairwise (· < ·) → ∀ p ∈ l, interp1 l p.1 = p.2 := by
  intro l
  induction l with
  | nil => intro _ p hp; simp at hp
  | cons a t ih =>
    intro hpw p hp
    simp only [List.map_cons] at hpw
    cases t with
    | nil =>
      have hpa : p = a := by simpa using hp
      subst hpa
      rfl
    | cons q t2 =>
      simp only [List.map_cons] at hpw
      have haq : a.1 < q.1 := by
        have hh := (List.pairwise_cons.mp hpw).1
        exact hh q.1 (by simp)
      cases t2 with
      | nil =>
        have hmem : p = a ∨ p = q := by simpa using hp
        rcases hmem with h1 | h1
        · rw [h1]
          show seg a q a.1 = a.2
          exact seg_left a q
        · rw [h1]
          show seg a q q.1 = q.2
          exact seg_right a q (ne_of_lt haq)
      | cons r t3 =>
        rcases List.mem_cons.mp hp with rfl | hp'
        · have hstep : interp1 (p :: q :: r :: t3) p.1 = seg p q p.1 := by
            simp [interp1, le_of_lt haq]
          rw [hstep, seg_left]
        · rcases List.mem_cons.mp hp' with rfl | hp''
          · have hstep : interp1 (a :: p :: r :: t3) p.1 = seg a p p.1 := by
              simp [interp1]
            rw [hstep, seg_right a p (ne_of_lt haq)]
          · have hq : q.1 < p.1 := by
              have htail := (List.pairwise_cons.mp (List.pairwise_cons.mp hpw).2).1
              apply htail p.1
              simpa using List.mem_map_of_mem Prod.fst hp''
            have hstep : interp1 (a :: q :: r :: t3) p.1 = interp1 (q :: r :: t3) p.1 := by
              simp [interp1, not_le.mpr hq]
            rw [hstep]
            exact ih (List.pairwise_cons.mp hpw).2 p hp'

/-! Lemmas on the embedded np.argmax and min. -/

/-- argmaxList indexes into the list whenever it is nonempty. -/
theorem argmaxList_lt : ∀ (l : List ℕ), l ≠ [] → argmaxList l < l.length := by
  intro l
  induction l with
  | nil => intro h; exact absurd rfl h
  | cons h t ih =>
    intro _
    by_cases hc : t.getD (argmaxList t) 0 > h
    · have ht : t ≠ [] := by
        intro h0
        subst h0
        simp [List.getD] at hc
      rw [argmaxList, if_pos hc]
      simpa using ih ht
    · rw [argmaxList, if_neg hc]
      simp

/-- The value indexed by argmaxList dominates every entry of the list. -/
theorem argmaxList_le : ∀ (l : List ℕ) (j : ℕ), j < l.length →
    l.getD j 0 ≤ l.getD (argmaxList l) 0 := by
  intro l
  induction l with
  | nil => intro j hj; simp at hj
  | cons h t ih =>
    intro j hj
    by_cases hc : t.getD (argmaxList t) 0 > h
    · rw [argmaxList, if_pos hc]
      cases j with
      | zero => simpa using le_of_lt hc
      | succ j' =>
        simp only [List.getD_cons_succ]
        exact ih j' (by simpa using hj)
    · rw [argmaxList, if_neg hc]
      cases j with
      | zero => simp
      | succ j' =>
        simp only [List.getD_cons_succ, List.getD_cons_zero]
        have hj' : j' < t.length := by simpa using hj
        exact le_trans (ih j' hj') (not_lt.mp hc)

/-- Every entry strictly before the argmaxList index is strictly below the
maximum: argmaxList is the FIRST index attaining the maximum, like
np.argmax. -/
theorem argmaxList_first : ∀ (l : List ℕ) (j : ℕ), j < argmaxList l →
    l.getD j 0 < l.getD (argmaxList l) 0 := by
  intro l
  induction l with
  | nil => intro j hj; simp [argmaxList] at hj
  | cons h t ih =>
    intro j hj
    by_cases hc : t.getD (argmaxList t) 0 > h
    · rw [argmaxList, if_pos hc] at hj ⊢
      cases j with
      | zero => simpa using hc
      | succ j' =>
        simp only [List.getD_cons_succ]
        exact ih j' (by omega)
    · rw [argmaxList, if_neg hc] at hj
      omega

/-- minNat is a lower bound of the accumulator in its fold. -/
theorem foldl_min_le_init : ∀ (t : List ℕ) (a : ℕ), t.foldl min a ≤ a := by
  intro t
  induction t with
  | nil => intro a; exact le_refl a
  | cons x t ih =>
    intro a
    calc (x :: t).foldl min a = t.foldl min (min a x) := rfl
    _ ≤ min a x := ih (min a x)
    _ ≤ a := min_le_left a x

/-- The fold of min is a lower bound of every traversed element. -/
theorem foldl_min_le_mem : ∀ (t : List ℕ) (a x : ℕ), x ∈ t → t.foldl min a ≤ x := by
  intro t
  induction t with
  | nil => intro a x hx; simp at hx
  | cons y t ih =>
    intro a x hx
    rcases List.mem_cons.mp hx with rfl | hx'
    · calc (x :: t).foldl min a = t.foldl min (min a x) := rfl
      _ ≤ min a x := foldl_min_le_init t (min a x)
      _ ≤ x := min_le_right a x
    · exact ih (min a y) x hx'

/-- minNat is a lower bound of every element of the list. -/
theorem minNat_le (l : List ℕ) (x : ℕ) (hx : x ∈ l) : minNat l ≤ x := by
  cases l with
  | nil => simp at hx
  | cons h t =>
    rcases List.mem_cons.mp hx with rfl | hx'
    · exact foldl_min_le_init t x
    · exact foldl_min_le_mem t h x hx'

/-! Structural lemmas on the version3A pipeline. -/

/-- When get_sync_fronts succeeds, the nsync counts are exactly the TOTAL
per-probe edge counts (len of the channels array of each probe) and there
is one time stream per probe. -/
theorem getSyncFronts_spec : ∀ (ps : List ProbeFile) (name : String) (d : Fronts),
    getSyncFronts ps name = some d →
      d.nsync = ps.map (fun p => p.sync.channels.length)
      ∧ d.times.length = ps.length := by
  intro ps
  induction ps with
  | nil =>
    intro name d h
    simp only [getSyncFronts, Option.some.injEq] at h
    rw [← h]
    simp
  | cons p pt ih =>
    intro name d h
    simp only [getSyncFronts] at h
    cases hf : frontsFor p name with
    | none => rw [hf] at h; simp at h
    | some ts =>
      cases hr : getSyncFronts pt name with
      | none => rw [hf, hr] at h; simp at h
      | some rest =>
        rw [hf, hr] at h
        simp only [Option.some.injEq] at h
        obtain ⟨h1, h2⟩ := ih name rest hr
        rw [← h]
        simp [h1, h2]

/-- getD through a map of List.take, with the empty default. -/
theorem getD_map_take : ∀ (l : List (List ℚ)) (m i : ℕ),
    (l.map (List.take m)).getD i [] = (l.getD i []).take m := by
  intro l
  induction l with
  | nil => intro m i; simp
  | cons a t ih =>
    intro m i
    cases i with
    | zero => simp
    | succ i' => simpa using ih m i'

/-- getD on a map over List.range, at an in-range index. -/
theorem map_range_getD {β : Type} (n i : ℕ) (F : ℕ → β) (dflt : β) (h : i < n) :
    ((List.range n).map F).getD i dflt = F i := by
  have hlen : i < ((List.range n).map F).length := by simpa using h
  rw [List.getD_eq_getElem _ _ hlen]
  simp

/-- On a session of at least two probes, version3A succeeds exactly on the
successful channel choices and is then the fit stage applied to them. -/
theorem version3A_ok (lp : List ℚ → List ℚ) (probes : List ProbeFile)
    (display linear : Bool) (tol : ℚ) (d : Fronts) (w : Bool)
    (h2 : 2 ≤ probes.length) (hc : chooseFronts probes = .ok (d, w)) :
    version3A lp probes display linear tol
      = .ok (fit3A lp probes display linear tol d w) := by
  unfold version3A
  rw [if_neg (by omega), hc]
  rfl

/-- Inversion: a successful version3A run on at least two probes comes
from a successful channel choice, and is the fit stage on it. -/
theorem version3A_ok_inv (lp : List ℚ → List ℚ) (probes : List ProbeFile)
    (display linear : Bool) (tol : ℚ) (r : Run3A)
    (h2 : 2 ≤ probes.length)
    (hr : version3A lp probes display linear tol = .ok r) :
    ∃ d w, chooseFronts probes = .ok (d, w)
      ∧ r = fit3A lp probes display linear tol d w := by
  unfold version3A at hr
  rw [if_neg (by omega)] at hr
  cases hc : chooseFronts probes with
  | error e => rw [hc] at hr; simp [Except.map] at hr
  | ok dw =>
    obtain ⟨d0, w0⟩ := dw
    rw [hc] at hr
    simp only [Except.map, Except.ok.injEq] at hr
    exact ⟨d0, w0, rfl, hr.symm⟩

/-- A successful channel choice always comes from a successful
get_sync_fronts call (on frame2ttl or on the camera fallback). -/
theorem chooseFronts_ok (probes : List ProbeFile) (d : Fronts) (w : Bool)
    (hc : chooseFronts probes = .ok (d, w)) :
    getSyncFronts probes "frame2ttl" = some d
      ∨ getSyncFronts probes "right_camera" = some d := by
  unfold chooseFronts at hc
  cases h1 : getSyncFronts probes "frame2ttl" with
  | some d' =>
    rw [h1] at hc
    simp only [Except.ok.injEq, Prod.mk.injEq] at hc
    left
    rw [hc.1]
  | none =>
    rw [h1] at hc
    cases h2 : getSyncFronts probes "right_camera" with
    | none => rw [h2] at hc; simp at hc
    | some d' =>
      rw [h2] at hc
      simp only [] at hc
      by_cases hmin : ¬ minFirst d'.times > 1 / 5
      · rw [if_pos hmin] at hc; simp at hc
      · rw [if_neg hmin] at hc
        simp only [Except.ok.injEq, Prod.mk.injEq] at hc
        right
        rw [hc.1]

/-- The reference index of the fit stage. -/
theorem fit3A_iref (lp : List ℚ → List ℚ) (probes : List ProbeFile)
    (display linear : Bool) (tol : ℚ) (d : Fronts) (w : Bool) :
    (fit3A lp probes display linear tol d w).iref = argmaxList d.nsync := rfl

/-- The truncation warning of the fit stage is logged exactly when the
per-probe edge counts are not all equal. -/
theorem fit3A_truncWarn (lp : List ℚ → List ℚ) (probes : List ProbeFile)
    (display linear : Bool) (tol : ℚ) (d : Fronts) (w : Bool) :
    (fit3A lp probes display linear tol d w).truncWarn
      = decide (1 < (d.times.map List.length).dedup.length) := rfl

/-- The pair of tables persisted for probe ind by the fit stage. -/
theorem fit3A_saved_getD (lp : List ℚ → List ℚ) (probes : List ProbeFile)
    (display linear : Bool) (tol : ℚ) (d : Fronts) (w : Bool) (ind : ℕ)
    (hind : ind < probes.length) :
    (fit3A lp probes display linear tol d w).saved.getD ind ([], [])
      = (if ind = argmaxList d.nsync then
          save_timestamps_npy [(0, 0), (1, 1)]
            (probes.getD (argmaxList d.nsync) dfltProbe).sr
        else
          save_timestamps_npy
            (sync_probe_front_times lp
              ((d.times.getD ind []).take (minNat (d.times.map List.length)))
              ((d.times.getD (argmaxList d.nsync) []).take (minNat (d.times.map List.length)))
              (probes.getD (argmaxList d.nsync) dfltProbe).sr display linear tol).syncPoints
            (probes.getD (argmaxList d.nsync) dfltProbe).sr) := by
  unfold fit3A
  simp only [List.map_map]
  rw [map_range_getD _ _ _ _ hind]
  by_cases h : ind = argmaxList d.nsync
  · simp [h]
  · simp only [Function.comp, h, if_neg h, if_false]
    rw [getD_map_take, getD_map_take]

/-! Projection lemmas for sync_probe_front_times. -/

/-- The returned control points are the fitting-stage output. -/
theorem spft_syncPoints (lp : List ℚ → List ℚ) (t tref : List ℚ) (sr : ℚ)
    (display linear : Bool) (tol : ℚ) :
    (sync_probe_front_times lp t tref sr display linear tol).syncPoints
      = fitSyncPoints lp t tref linear := rfl

/-- The returned QC boolean is the tolerance check of the fitting-stage
output. -/
theorem spft_qc (lp : List ℚ → List ℚ) (t tref : List ℚ) (sr : ℚ)
    (display linear : Bool) (tol : ℚ) :
    (sync_probe_front_times lp t tref sr display linear tol).qc
      = syncQc t tref (fitSyncPoints lp t tref linear) sr tol := rfl

/-- polyval of a degree-1 fit at 0 is the intercept. -/
theorem polyval1_zero (pol : ℚ × ℚ) : polyval1 pol 0 = pol.2 := by simp [polyval1]

/-- polyval of a degree-1 fit at 1 is slope plus intercept. -/
theorem polyval1_one (pol : ℚ × ℚ) : polyval1 pol 1 = pol.1 + pol.2 := by simp [polyval1]

/-- With the linear flag, the fitted control points are the two-point
table of the least-squares line evaluated at 0 and 1. -/
theorem fitSyncPoints_linear (lp : List ℚ → List ℚ) (t tref : List ℚ) :
    fitSyncPoints lp t tref true
      = [(0, polyval1 (polyfit1 (t.zip tref)) 0),
         (1, polyval1 (polyfit1 (t.zip tref)) 1)] := rfl

/-- The QC check passes exactly when every matched pair lies within tol
samples of the interpolant. -/
theorem syncQc_iff (t tref : List ℚ) (sp : List (ℚ × ℚ)) (sr tol : ℚ) :
    syncQc t tref sp sr tol = true
      ↔ ∀ p ∈ t.zip tref, |(p.2 - interp1 sp p.1) * sr| ≤ tol := by
  simp [syncQc, not_lt]

/-- The QC check fails exactly when some matched pair deviates strictly
beyond tol samples. -/
theorem syncQc_false_iff (t tref : List ℚ) (sp : List (ℚ × ℚ)) (sr tol : ℚ) :
    syncQc t tref sp sr tol = false
      ↔ ∃ p ∈ t.zip tref, tol < |(p.2 - interp1 sp p.1) * sr| := by
  simp [syncQc]

/-! Concrete sessions used to instantiate the claims.  All concrete runs
use the linear branch, so the external low-pass filter is never invoked;
the identity function stands in for it. -/

/-- Identity stand-in for the external low-pass filter in concrete runs. -/
def idLp : List ℚ → List ℚ := fun l => l

/-- Probe with 2 edges, both on the frame2ttl channel. -/
def probeA : ProbeFile := ⟨⟨[0, 0], [1, 2]⟩, [("frame2ttl", 0)], 10⟩

/-- Probe with 3 edges, all on the frame2ttl channel. -/
def probeB : ProbeFile := ⟨⟨[0, 0, 0], [1, 2, 3]⟩, [("frame2ttl", 0)], 10⟩

/-- Two-probe session whose reference (most total edges) is probe 1. -/
def sessA : List ProbeFile := [probeA, probeB]

/-- The fronts of sessA on frame2ttl. -/
def dA : Fronts := ⟨[[1, 2], [1, 2, 3]], [2, 3]⟩

/-- Channel choice of sessA: frame2ttl, no fallback. -/
theorem chooseA : chooseFronts sessA = .ok (dA, false) := by
  norm_num [chooseFronts, getSyncFronts, frontsFor, sessA, probeA, probeB, dA,
    List.find?, List.filter]

/-- List.range 2 evaluated. -/
theorem rangeTwo : List.range 2 = [0, 1] := by decide

/-- The linear fit of two identical two-point streams is the identity
line. -/
theorem fitA_points : fitSyncPoints idLp [1, 2] [1, 2] true = [(0, 0), (1, 1)] := by
  rw [fitSyncPoints_linear]
  norm_num [polyfit1, polyfitDenom, sumX, sumY, sumXX, sumXY, polyval1]

/-- The identity fit of identical streams passes the 2.1-sample check. -/
theorem fitA_qc : syncQc [1, 2] [1, 2] [(0, 0), (1, 1)] 10 (21 / 10) = true := by
  rw [syncQc_iff]
  norm_num [interp1, seg]

/-- The session QC of sessA is True. -/
theorem sessA_qcAll : (fit3A idLp sessA false true (21 / 10) dA false).qcAll = true := by
  norm_num [fit3A, sessA, dA, probeA, probeB, argmaxList, minNat, rangeTwo,
    spft_qc, spft_syncPoints, fitA_points, fitA_qc, -Prod.mk_zero_zero, -Prod.mk_one_one]

/-- version3A on sessA succeeds with the fit-stage result. -/
theorem sessA_run : version3A idLp sessA false true (21 / 10)
    = .ok (fit3A idLp sessA false true (21 / 10) dA false) :=
  version3A_ok idLp sessA false true (21 / 10) dA false (by norm_num [sessA]) chooseA

/-- Probe with 5 edges in total but only 2 on the frame2ttl channel. -/
def probeC : ProbeFile := ⟨⟨[0, 0, 1, 1, 1], [1, 2, 3, 4, 5]⟩, [("frame2ttl", 0)], 10⟩

/-- Probe with 3 edges, all on the frame2ttl channel. -/
def probeD : ProbeFile := ⟨⟨[0, 0, 0], [1, 2, 3]⟩, [("frame2ttl", 0)], 10⟩

/-- Session where total edge counts (5, 3) and frame2ttl edge counts
(2, 3) order the probes oppositely. -/
def sessB : List ProbeFile := [probeC, probeD]

/-- The fronts of sessB on frame2ttl: nsync holds the TOTAL counts. -/
def dB : Fronts := ⟨[[1, 2], [1, 2, 3]], [5, 3]⟩

/-- Channel choice of sessB: frame2ttl, no fallback. -/
theorem chooseB : chooseFronts sessB = .ok (dB, false) := by
  norm_num [chooseFronts, getSyncFronts, frontsFor, sessB, probeC, probeD, dB,
    List.find?, List.filter_cons, List.filter_nil]

/-- The frame2ttl fronts of sessB. -/
theorem syncB : getSyncFronts sessB "frame2ttl" = some dB := by
  norm_num [getSyncFronts, frontsFor, sessB, probeC, probeD, dB,
    List.find?, List.filter_cons, List.filter_nil]

/-- version3A on sessB succeeds with the fit-stage result. -/
theorem sessB_run : version3A idLp sessB false true 3
    = .ok (fit3A idLp sessB false true 3 dB false) :=
  version3A_ok idLp sessB false true 3 dB false (by norm_num [sessB]) chooseB

/-- Camera-only probe whose first edge is at 0.1 s. -/
def probeE : ProbeFile := ⟨⟨[2, 2], [1/10, 3]⟩, [("right_camera", 2)], 10⟩

/-- Camera-only probe whose first edge is also at 0.1 s. -/
def probeF : ProbeFile := ⟨⟨[2, 2], [1/10, 4]⟩, [("right_camera", 2)], 10⟩

/-- Fallback session whose earliest camera edge (0.1 s) is strictly
positive yet at most 0.2 s. -/
def sessC : List ProbeFile := [probeE, probeF]

/-- Camera-only probe whose first edge is at 0.5 s. -/
def probeG : ProbeFile := ⟨⟨[2, 2], [1/2, 3]⟩, [("right_camera", 2)], 10⟩

/-- Camera-only probe whose first edge is at 1 s. -/
def probeH : ProbeFile := ⟨⟨[2, 2], [1, 4]⟩, [("right_camera", 2)], 10⟩

/-- Fallback session whose earliest camera edge is 0.5 s. -/
def sessD : List ProbeFile := [probeG, probeH]

/-- The camera fronts of sessD. -/
def dD : Fronts := ⟨[[1/2, 3], [1, 4]], [2, 2]⟩

/-- sessD has no frame2ttl channel. -/
theorem sessD_no_frame2ttl : getSyncFronts sessD "frame2ttl" = none := by
  simp [getSyncFronts, frontsFor, sessD, probeG, probeH, List.find?]

/-- The camera fronts of sessD evaluated. -/
theorem sessD_camera : getSyncFronts sessD "right_camera" = some dD := by
  simp [getSyncFronts, frontsFor, sessD, probeG, probeH, dD,
    List.find?, List.filter_cons, List.filter_nil]

/-! The claims. -/

/-- C1: for equal-length matched streams and a nonnegative sampling rate,
sync_probe_front_times returns (sync_points, qc) where qc is False exactly
when some matched pair i deviates from the piecewise-linear-extrapolated
interpolant built on the returned control points by strictly more than tol
samples, and the control-point table is identical whatever tolerance is
checked: verification is advisory and never alters the fit, and whenever
qc is True every pair is within tol samples. -/
theorem c1_qc_advisory (lp : List ℚ → List ℚ) (t tref : List ℚ) (sr : ℚ)
    (display linear : Bool) (tol : ℚ)
    (hlen : t.length = tref.length) (hsr : 0 ≤ sr) :
    ((sync_probe_front_times lp t tref sr display linear tol).qc = false
      ↔ ∃ i, ∃ h : i < t.length,
          |tref.getD i 0
              - interp1 (sync_probe_front_times lp t tref sr display linear tol).syncPoints
                  (t.getD i 0)| * sr > tol)
    ∧ ∀ tol2 : ℚ,
        (sync_probe_front_times lp t tref sr display linear tol2).syncPoints
          = (sync_probe_front_times lp t tref sr display linear tol).syncPoints := by
  have hzlen : (t.zip tref).length = t.length := by
    rw [List.length_zip, hlen, min_self]
  constructor
  · rw [spft_qc, spft_syncPoints, syncQc_false_iff]
    constructor
    · rintro ⟨p, hp, hlt⟩
      obtain ⟨i, hi, hget⟩ := List.mem_iff_getElem.mp hp
      have hit : i < t.length := hzlen ▸ hi
      have hitr : i < tref.length := hlen ▸ hit
      refine ⟨i, hit, ?_⟩
      have hz : (t.zip tref)[i] = (t[i], tref[i]) := List.getElem_zip
      rw [hz] at hget
      have h1 : t[i] = p.1 := by rw [← hget]
      have h2 : tref[i] = p.2 := by rw [← hget]
      rw [List.getD_eq_getElem t 0 hit, List.getD_eq_getElem tref 0 hitr, h1, h2]
      rw [abs_mul, abs_of_nonneg hsr] at hlt
      exact hlt
    · rintro ⟨i, hit, hgt⟩
      have hitr : i < tref.length := hlen ▸ hit
      have hiz : i < (t.zip tref).length := by rw [hzlen]; exact hit
      refine ⟨(t[i], tref[i]), List.mem_iff_getElem.mpr ⟨i, hiz, List.getElem_zip⟩, ?_⟩
      rw [List.getD_eq_getElem t 0 hit, List.getD_eq_getElem tref 0 hitr] at hgt
      rw [abs_mul, abs_of_nonneg hsr]
      exact hgt
  · intro tol2
    rw [spft_syncPoints, spft_syncPoints]

/-- C1 witness: the theorem instantiated on two identical two-point
streams at sampling rate 10 and tolerance 2.1. -/
theorem c1_qc_advisory_witness :
    ([1, 2] : List ℚ).length = ([1, 2] : List ℚ).length
    ∧ (0 : ℚ) ≤ 10
    ∧ (((sync_probe_front_times idLp [1, 2] [1, 2] 10 false true (21/10)).qc = false
        ↔ ∃ i, ∃ h : i < ([1, 2] : List ℚ).length,
            |([1, 2] : List ℚ).getD i 0
                - interp1 (sync_probe_front_times idLp [1, 2] [1, 2] 10 false true
                    (21/10)).syncPoints (([1, 2] : List ℚ).getD i 0)| * 10 > 21/10)
      ∧ ∀ tol2 : ℚ,
          (sync_probe_front_times idLp [1, 2] [1, 2] 10 false true tol2).syncPoints
            = (sync_probe_front_times idLp [1, 2] [1, 2] 10 false true (21/10)).syncPoints) :=
  ⟨rfl, by norm_num,
    c1_qc_advisory idLp [1, 2] [1, 2] 10 false true (21/10) rfl (by norm_num)⟩

/-- C2 (code bug): the public entry point sync drops the session QC
boolean.  On the two-probe 3A session sessA, version3A returns the
session QC True, but sync — whose docstring and spec promise that
boolean — falls through and returns None. -/
theorem c2_sync_returns_none :
    sync idLp sessA "3A" false true (21 / 10) = .ok none
    ∧ (version3A idLp sessA false true (21 / 10)).map Run3A.qcAll = .ok true := by
  constructor
  · simp [sync, sessA_run]
  · rw [sessA_run]
    simp [Except.map, sessA_qcAll]

/-- C3 counterexample: in sessB the frame2ttl edge counts per probe are
(2, 3), so the claim predicts reference probe 1, but version3A selects
probe 0, whose TOTAL edge count over all channels (5) is largest. -/
theorem c3_counterexample :
    (version3A idLp sessB false true 3).map Run3A.iref = .ok 0
    ∧ ((getSyncFronts sessB "frame2ttl").map fun d =>
        argmaxList (d.times.map List.length)) = some 1 := by
  constructor
  · rw [sessB_run]
    simp [Except.map, fit3A_iref, dB, argmaxList]
  · rw [syncB]
    simp [dB, argmaxList]

/-- C3 amended: the reference probe of a successful multi-probe
version3A run is the probe with the largest TOTAL count of detected sync
edges (the length of its channels array, all channels confounded, not the
count on the chosen auxiliary channel), ties broken by first-seen order:
every probe counts at most as many total edges as the reference, and
every probe strictly before the reference counts strictly fewer. -/
theorem c3_reference_total_edges (lp : List ℚ → List ℚ) (probes : List ProbeFile)
    (display linear : Bool) (tol : ℚ) (r : Run3A)
    (h2 : 2 ≤ probes.length)
    (hr : version3A lp probes display linear tol = .ok r) :
    r.iref < probes.length
    ∧ (∀ j, j < probes.length →
        (probes.map fun p => p.sync.channels.length).getD j 0
          ≤ (probes.map fun p => p.sync.channels.length).getD r.iref 0)
    ∧ (∀ j, j < r.iref →
        (probes.map fun p => p.sync.channels.length).getD j 0
          < (probes.map fun p => p.sync.channels.length).getD r.iref 0) := by
  obtain ⟨d, w, hc, hfit⟩ := version3A_ok_inv lp probes display linear tol r h2 hr
  have hns : d.nsync = probes.map fun p => p.sync.channels.length := by
    rcases chooseFronts_ok probes d w hc with h | h
    · exact (getSyncFronts_spec probes _ d h).1
    · exact (getSyncFronts_spec probes _ d h).1
  have hlen : d.nsync.length = probes.length := by rw [hns, List.length_map]
  have hiref : r.iref = argmaxList d.nsync := by rw [hfit, fit3A_iref]
  have hne : d.nsync ≠ [] := by
    intro h0
    rw [h0] at hlen
    simp at hlen
    omega
  refine ⟨?_, ?_, ?_⟩
  · rw [hiref, ← hlen]
    exact argmaxList_lt d.nsync hne
  · intro j hj
    rw [hiref, ← hns]
    exact argmaxList_le d.nsync j (by rw [hlen]; exact hj)
  · intro j hj
    rw [hiref, ← hns]
    exact argmaxList_first d.nsync j (by rw [← hiref]; exact hj)

/-- C3 witness: the amended theorem instantiated on sessB, whose
reference is probe 0 with 5 total edges against 3. -/
theorem c3_reference_total_edges_witness :
    2 ≤ sessB.length
    ∧ version3A idLp sessB false true 3 = .ok (fit3A idLp sessB false true 3 dB false)
    ∧ ((fit3A idLp sessB false true 3 dB false).iref < sessB.length
      ∧ (∀ j, j < sessB.length →
          (sessB.map fun p => p.sync.channels.length).getD j 0
            ≤ (sessB.map fun p => p.sync.channels.length).getD
                (fit3A idLp sessB false true 3 dB false).iref 0)
      ∧ (∀ j, j < (fit3A idLp sessB false true 3 dB false).iref →
          (sessB.map fun p => p.sync.channels.length).getD j 0
            < (sessB.map fun p => p.sync.channels.length).getD
                (fit3A idLp sessB false true 3 dB false).iref 0)) :=
  ⟨by norm_num [sessB], sessB_run,
    c3_reference_total_edges idLp sessB false true 3 _ (by norm_num [sessB]) sessB_run⟩

/-- C4 counterexample: in sessA the reference probe (index 1, sampling
rate 10) persists the identity pair as its sync table, but its derived
timestamps table is [[0,0],[10,1]], which differs from the identity
pair. -/
theorem c4_counterexample :
    (version3A idLp sessA false true (21/10)).map
        (fun r => r.saved.getD r.iref ([], []))
      = .ok ([(0, 0), (1, 1)], [(0, 0), (10, 1)])
    ∧ ([((0 : ℚ), (0 : ℚ)), (10, 1)] ≠ [((0 : ℚ), (0 : ℚ)), (1, 1)]) := by
  constructor
  · rw [sessA_run]
    simp only [Except.map]
    have hiref : (fit3A idLp sessA false true (21/10) dA false).iref = 1 := by
      rw [fit3A_iref]
      simp [dA, argmaxList]
    rw [hiref, fit3A_saved_getD idLp sessA false true (21/10) dA false 1
      (by norm_num [sessA])]
    have hax : argmaxList dA.nsync = 1 := by simp [dA, argmaxList]
    rw [hax, if_pos rfl]
    norm_num [save_timestamps_npy, sessA, probeA, probeB]
  · norm_num

/-- C4 amended: on every successful multi-probe version3A run, the
reference probe persists the identity pair [[0,0],[1,1]] as its raw sync
control-point table, while its derived timestamps table is that pair with
the first column scaled by the sampling rate, i.e. [[0,0],[sr,1]]. -/
theorem c4_reference_tables (lp : List ℚ → List ℚ) (probes : List ProbeFile)
    (display linear : Bool) (tol : ℚ) (r : Run3A)
    (h2 : 2 ≤ probes.length)
    (hr : version3A lp probes display linear tol = .ok r) :
    r.saved.getD r.iref ([], [])
      = ([(0, 0), (1, 1)],
          [(0, 0), ((probes.getD r.iref dfltProbe).sr, 1)]) := by
  obtain ⟨d, w, hc, hfit⟩ := version3A_ok_inv lp probes display linear tol r h2 hr
  have hns : d.nsync = probes.map fun p => p.sync.channels.length := by
    rcases chooseFronts_ok probes d w hc with h | h
    · exact (getSyncFronts_spec probes _ d h).1
    · exact (getSyncFronts_spec probes _ d h).1
  have hlen : d.nsync.length = probes.length := by rw [hns, List.length_map]
  have hne : d.nsync ≠ [] := by
    intro h0
    rw [h0] at hlen
    simp at hlen
    omega
  have hlt : argmaxList d.nsync < probes.length := by
    rw [← hlen]
    exact argmaxList_lt d.nsync hne
  subst hfit
  rw [fit3A_iref]
  rw [fit3A_saved_getD lp probes display linear tol d w (argmaxList d.nsync) hlt]
  rw [if_pos rfl]
  simp [save_timestamps_npy]

/-- C4 witness: the amended theorem instantiated on sessA, whose
reference is probe 1 with sampling rate 10. -/
theorem c4_reference_tables_witness :
    2 ≤ sessA.length
    ∧ version3A idLp sessA false true (21/10)
        = .ok (fit3A idLp sessA false true (21/10) dA false)
    ∧ (fit3A idLp sessA false true (21/10) dA false).saved.getD
          (fit3A idLp sessA false true (21/10) dA false).iref ([], [])
        = ([(0, 0), (1, 1)],
            [(0, 0),
             ((sessA.getD (fit3A idLp sessA false true (21/10) dA false).iref
                 dfltProbe).sr, 1)]) :=
  ⟨by norm_num [sessA], sessA_run,
    c4_reference_tables idLp sessA false true (21/10) _ (by norm_num [sessA]) sessA_run⟩

/-- C5: whenever the channel-selection stage of an independent-mode run
succeeds on a session of at least two probes, the run completes without
aborting; the unequal-count warning is logged exactly when the per-probe
edge counts differ; every stream used for fitting is its probe stream
truncated to exactly the minimum shared count; and every non-reference
probe persists precisely the sync_probe_front_times fit of its truncated
stream against the truncated reference stream. -/
theorem c5_truncation (lp : List ℚ → List ℚ) (probes : List ProbeFile)
    (display linear : Bool) (tol : ℚ) (d : Fronts) (w : Bool)
    (h2 : 2 ≤ probes.length)
    (hc : chooseFronts probes = .ok (d, w)) :
    ∃ r, version3A lp probes display linear tol = .ok r
      ∧ (r.truncWarn = true ↔ 1 < (d.times.map List.length).dedup.length)
      ∧ (∀ ts ∈ d.times,
          (ts.take (minNat (d.times.map List.length))).length
            = minNat (d.times.map List.length))
      ∧ (∀ ind, ind < probes.length → ind ≠ r.iref →
          r.saved.getD ind ([], [])
            = save_timestamps_npy
                (sync_probe_front_times lp
                  ((d.times.getD ind []).take (minNat (d.times.map List.length)))
                  ((d.times.getD r.iref []).take (minNat (d.times.map List.length)))
                  ((probes.getD r.iref dfltProbe).sr) display linear tol).syncPoints
                ((probes.getD r.iref dfltProbe).sr)) := by
  refine ⟨fit3A lp probes display linear tol d w,
    version3A_ok lp probes display linear tol d w h2 hc, ?_, ?_, ?_⟩
  · rw [fit3A_truncWarn]
    simp
  · intro ts hts
    have hmem : ts.length ∈ d.times.map List.length := List.mem_map_of_mem List.length hts
    have hle : minNat (d.times.map List.length) ≤ ts.length := minNat_le _ _ hmem
    rw [List.length_take]
    omega
  · intro ind hind hne
    rw [fit3A_iref] at hne ⊢
    rw [fit3A_saved_getD lp probes display linear tol d w ind hind, if_neg hne]

/-- C5 witness: the theorem instantiated on sessB, whose two streams have
unequal counts 2 and 3 and are fit on the first 2 matched pairs. -/
theorem c5_truncation_witness :
    2 ≤ sessB.length
    ∧ chooseFronts sessB = .ok (dB, false)
    ∧ ∃ r, version3A idLp sessB false true 3 = .ok r
      ∧ (r.truncWarn = true ↔ 1 < (dB.times.map List.length).dedup.length)
      ∧ (∀ ts ∈ dB.times,
          (ts.take (minNat (dB.times.map List.length))).length
            = minNat (dB.times.map List.length))
      ∧ (∀ ind, ind < sessB.length → ind ≠ r.iref →
          r.saved.getD ind ([], [])
            = save_timestamps_npy
                (sync_probe_front_times idLp
                  ((dB.times.getD ind []).take (minNat (dB.times.map List.length)))
                  ((dB.times.getD r.iref []).take (minNat (dB.times.map List.length)))
                  ((sessB.getD r.iref dfltProbe).sr) false true 3).syncPoints
                ((sessB.getD r.iref dfltProbe).sr)) :=
  ⟨by norm_num [sessB], chooseB,
    c5_truncation idLp sessB false true 3 dB false (by norm_num [sessB]) chooseB⟩

/-- C6 amended: on a session of at least two probes whose frame2ttl
channel is unavailable and whose camera channel is available on every
probe, version3A raises a hard error if and only if the minimum over
probes of the camera stream first timestamp is at most 0.2 s (the
source threshold is 0.2 s, not 0); above that threshold the fallback run
proceeds and returns a result. -/
theorem c6_camera_threshold (lp : List ℚ → List ℚ) (probes : List ProbeFile)
    (display linear : Bool) (tol : ℚ) (d : Fronts)
    (h2 : 2 ≤ probes.length)
    (hf : getSyncFronts probes "frame2ttl" = none)
    (hcam : getSyncFronts probes "right_camera" = some d) :
    (∃ e, version3A lp probes display linear tol = .error e)
      ↔ minFirst d.times ≤ 1 / 5 := by
  unfold version3A chooseFronts
  rw [if_neg (by omega)]
  simp only [hf, hcam]
  by_cases hmin : minFirst d.times > 1 / 5
  · rw [if_neg (not_not_intro hmin)]
    constructor
    · rintro ⟨e, he⟩
      simp [Except.map] at he
    · intro hle
      exact absurd hle (not_le.mpr hmin)
  · rw [if_pos hmin]
    constructor
    · intro _
      exact not_lt.mp hmin
    · intro _
      exact ⟨"Cameras started before ephys, no sync possible", rfl⟩

/-- sessC has no frame2ttl channel. -/
theorem sessC_no_frame2ttl : getSyncFronts sessC "frame2ttl" = none := by
  simp [getSyncFronts, frontsFor, sessC, probeE, probeF, List.find?]

/-- The camera fronts of sessC evaluated. -/
theorem sessC_camera :
    getSyncFronts sessC "right_camera" = some ⟨[[1/10, 3], [1/10, 4]], [2, 2]⟩ := by
  simp [getSyncFronts, frontsFor, sessC, probeE, probeF,
    List.find?, List.filter_cons, List.filter_nil]

/-- C6 counterexample: in sessC the earliest camera edge is at 0.1 s,
which is strictly positive, yet version3A raises the hard ValueError:
the source gate is at 0.2 s, not at 0. -/
theorem c6_counterexample :
    version3A idLp sessC true true 2
      = .error "Cameras started before ephys, no sync possible"
    ∧ (0 : ℚ) < 1 / 10 := by
  constructor
  · unfold version3A chooseFronts
    rw [if_neg (by norm_num [sessC])]
    simp only [sessC_no_frame2ttl, sessC_camera]
    rw [if_pos (by norm_num [minFirst])]
    rfl
  · norm_num

/-- C6 witness: the amended theorem instantiated on sessD, whose earliest
camera edge is at 0.5 s. -/
theorem c6_camera_threshold_witness :
    2 ≤ sessD.length
    ∧ getSyncFronts sessD "frame2ttl" = none
    ∧ getSyncFronts sessD "right_camera" = some dD
    ∧ ((∃ e, version3A idLp sessD true true 2 = .error e)
        ↔ minFirst dD.times ≤ 1 / 5) :=
  ⟨by norm_num [sessD], sessD_no_frame2ttl, sessD_camera,
    c6_camera_threshold idLp sessD true true 2 dD (by norm_num [sessD])
      sessD_no_frame2ttl sessD_camera⟩

/-- C7: for a persisted control-point table whose two columns are each
strictly increasing, and any query x among the local-time control points,
apply_sync maps x forward and back to exactly x: the two interpolation
orientations are exact mutual inverses at the knots. -/
theorem c7_roundtrip (pts : List (ℚ × ℚ)) (x : ℚ)
    (h1 : (pts.map Prod.fst).Chain' (· < ·))
    (h2 : (pts.map Prod.snd).Chain' (· < ·))
    (hx : x ∈ pts.map Prod.fst) :
    apply_sync pts (apply_sync pts x true) false = x := by
  obtain ⟨p, hp, hpx⟩ := List.mem_map.mp hx
  subst hpx
  have hfwd : interp1 pts p.1 = p.2 :=
    interp1_knot pts (List.chain'_iff_pairwise.mp h1) p hp
  have hsw : ((pts.map fun q => (q.2, q.1)).map Prod.fst).Pairwise (· < ·) := by
    rw [List.map_map]
    have hcomp : (Prod.fst ∘ fun q : ℚ × ℚ => (q.2, q.1)) = Prod.snd := rfl
    rw [hcomp]
    exact List.chain'_iff_pairwise.mp h2
  have hbwd : interp1 (pts.map fun q => (q.2, q.1)) p.2 = p.1 := by
    have hmem : (p.2, p.1) ∈ pts.map fun q => (q.2, q.1) :=
      List.mem_map_of_mem _ hp
    exact interp1_knot _ hsw (p.2, p.1) hmem
  simp [apply_sync, hfwd, hbwd]

/-- C7 witness: round trip at the knot x = 1 of the increasing table
[(0,0),(1,2)]. -/
theorem c7_roundtrip_witness :
    (([((0:ℚ),(0:ℚ)), (1, 2)].map Prod.fst).Chain' (· < ·))
    ∧ (([((0:ℚ),(0:ℚ)), (1, 2)].map Prod.snd).Chain' (· < ·))
    ∧ (1 : ℚ) ∈ [((0:ℚ),(0:ℚ)), (1, 2)].map Prod.fst
    ∧ apply_sync [((0:ℚ),(0:ℚ)), (1, 2)]
        (apply_sync [((0:ℚ),(0:ℚ)), (1, 2)] 1 true) false = 1 :=
  ⟨by norm_num [List.chain'_cons], by norm_num [List.chain'_cons], by norm_num,
    c7_roundtrip [((0:ℚ),(0:ℚ)), (1, 2)] 1 (by norm_num [List.chain'_cons])
      (by norm_num [List.chain'_cons]) (by norm_num)⟩

/-- C8: with the linear flag, sync_probe_front_times returns exactly the
two control points [[0, b], [1, a + b]] where (a, b) are the slope and
intercept of the degree-1 least-squares fit of tref against t: the
returned pair minimizes the sum of squared residuals among all affine
models (stated under nondegeneracy of the least-squares system). -/
theorem c8_linear_points (lp : List ℚ → List ℚ) (t tref : List ℚ) (sr : ℚ)
    (display : Bool) (tol : ℚ)
    (hden : polyfitDenom (t.zip tref) ≠ 0) :
    (sync_probe_front_times lp t tref sr display true tol).syncPoints
      = [(0, (polyfit1 (t.zip tref)).2),
         (1, (polyfit1 (t.zip tref)).1 + (polyfit1 (t.zip tref)).2)]
    ∧ ∀ c : ℚ × ℚ, lsqErr (t.zip tref) (polyfit1 (t.zip tref)) ≤ lsqErr (t.zip tref) c := by
  constructor
  · rw [spft_syncPoints, fitSyncPoints_linear, polyval1_zero, polyval1_one]
  · exact polyfit1_lsq (t.zip tref) hden

/-- C8 witness: the theorem instantiated on the two-point streams
[1, 2] and [1, 2], whose least-squares system has denominator 1. -/
theorem c8_linear_points_witness :
    polyfitDenom (([1, 2] : List ℚ).zip [1, 2]) ≠ 0
    ∧ ((sync_probe_front_times idLp [1, 2] [1, 2] 10 false true (21/10)).syncPoints
        = [(0, (polyfit1 (([1, 2] : List ℚ).zip [1, 2])).2),
           (1, (polyfit1 (([1, 2] : List ℚ).zip [1, 2])).1
                + (polyfit1 (([1, 2] : List ℚ).zip [1, 2])).2)]
      ∧ ∀ c : ℚ × ℚ, lsqErr (([1, 2] : List ℚ).zip [1, 2]) (polyfit1 (([1, 2] : List ℚ).zip [1, 2]))
          ≤ lsqErr (([1, 2] : List ℚ).zip [1, 2]) c) :=
  ⟨by norm_num [polyfitDenom, sumX, sumXX],
    c8_linear_points idLp [1, 2] [1, 2] 10 false (21/10)
      (by norm_num [polyfitDenom, sumX, sumXX])⟩

/-- C9: the writer persists the control-point table unmodified as the
sync file, and the derived timestamps table keeps the reference-time
column unchanged while multiplying the local-time column by the sampling
rate it is given. -/
theorem c9_writer (tbl : List (ℚ × ℚ)) (sr : ℚ) :
    (save_timestamps_npy tbl sr).1 = tbl
    ∧ (save_timestamps_npy tbl sr).2.map Prod.snd = tbl.map Prod.snd
    ∧ (save_timestamps_npy tbl sr).2.map Prod.fst = tbl.map fun r => r.1 * sr := by
  refine ⟨rfl, ?_, ?_⟩ <;> simp [save_timestamps_npy]

/-- C10: the numeric outputs of sync_probe_front_times — the control
points and the QC boolean — are identical with the display diagnostic
enabled and disabled; only the plotting effect differs. -/
theorem c10_display_invariant (lp : List ℚ → List ℚ) (t tref : List ℚ) (sr : ℚ)
    (linear : Bool) (tol : ℚ) :
    ((sync_probe_front_times lp t tref sr true linear tol).syncPoints,
      (sync_probe_front_times lp t tref sr true linear tol).qc)
      = ((sync_probe_front_times lp t tref sr false linear tol).syncPoints,
          (sync_probe_front_times lp t tref sr false linear tol).qc) := rfl
